import Mathlib

/-!
# Logpush to Loki adapter (`src/index.js`)

A shallow embedding of the three functions of the worker, `transformLogs`,
`pushLogs` and `handleRequest`, together with the JavaScript primitives they are
built from, followed by theorems about them.

Conventions of the embedding:

* a JavaScript string is the list of its UTF-16 code units (`JSString`);
* a byte buffer is a list of bytes (`Fin 256`);
* a JavaScript number that the program computes is a natural number, and the
  product `a * b` is rounded to the nearest IEEE-754 double (`jsMul`);
* library and host functions whose code is outside the repository (`inflate` of
  pako, `Body.json()`, `JSON.stringify`) are the fields of a `Platform`; the
  wall clock, the configured `lokiHost` and the backend reached through `fetch`
  are the fields of an `Env`;
* effects (clock reads, body reads, outbound calls, console output) are
  recorded in an explicit `World` that is threaded through the functions;
* a thrown exception or rejected promise is `Except.error`.
-/

namespace LogpushGrafana

/-! ## JavaScript primitives -/

/-- A JavaScript string: the sequence of its UTF-16 code units. -/
abbrev JSString := List Nat

/-- A byte of an `ArrayBuffer` or `Uint8Array`. -/
abbrev Byte := Fin 256

/-- The JavaScript string written as an ASCII literal in the source. -/
def ascii (s : String) : JSString := s.toList.map Char.toNat

/-- Code unit of the newline character, the separator in `split('\n')`. -/
def newline : Nat := 10

/-- The expression `String.fromCharCode(n)`: the one-unit string whose code unit is `n`
truncated to 16 bits. -/
def fromCharCode (n : Nat) : JSString := [n % 65536]

/-- The expression `new Uint16Array(data)` for a `Uint8Array` `data`: a typed array of the same
length whose elements are the elements of `data` converted one by one to 16-bit
unsigned integers. -/
def toUint16Array (data : List Byte) : List Nat := data.map (fun b => b.val % 65536)

/-- The reduction of lines 29 to 31: starting from the empty string, append
`String.fromCharCode(byte)` for every element, left to right. -/
def reduceToString (units : List Nat) : JSString :=
  units.foldl (fun data byte => data ++ fromCharCode byte) []

/-- The call `s.split('\n')`: the substrings of `s` between consecutive newline
code units, in order. The empty string gives one empty piece. -/
def splitNewline : JSString → List JSString
  | [] => [[]]
  | c :: cs =>
    if c = newline then [] :: splitNewline cs
    else
      match splitNewline cs with
      | [] => [[c]]
      | piece :: rest => (c :: piece) :: rest

/-- Number of binary digits of `n`, with `fuel` an upper bound on that number. -/
def bitLengthAux : Nat → Nat → Nat
  | 0, _ => 0
  | fuel + 1, n => if n = 0 then 0 else bitLengthAux fuel (n / 2) + 1

/-- Number of binary digits of `n` (`0` for `0`). -/
def bitLength (n : Nat) : Nat := bitLengthAux n n

/-- The IEEE-754 double nearest to the natural number `n` (round half to even), for `n`
below the overflow threshold of doubles: numbers below `2 ^ 53` are exact, larger ones
keep their 53 leading binary digits. -/
def roundBinary64 (n : Nat) : Nat :=
  if n < 2 ^ 53 then n
  else
    let e := bitLength n - 53
    let q := n / 2 ^ e
    let r := n % 2 ^ e
    let half := 2 ^ (e - 1)
    let q1 := if r < half then q else if half < r then q + 1 else if q % 2 = 0 then q else q + 1
    q1 * 2 ^ e

/-- The natural number `t` is a double nearest to the natural number `x`: it is `x` itself
below `2 ^ 53`; from there on, with `e` the number of binary digits of `x` beyond
the first `53`, it is a multiple of `2 ^ e` with a quotient of at most `2 ^ 53`, and
it differs from `x` by at most half of `2 ^ e`. -/
def IsNearestDouble (x t : Nat) : Prop :=
  if x < 2 ^ 53 then t = x
  else
    t % 2 ^ (bitLength x - 53) = 0 ∧ t / 2 ^ (bitLength x - 53) ≤ 2 ^ 53
      ∧ 2 * (t - x) ≤ 2 ^ (bitLength x - 53) ∧ 2 * (x - t) ≤ 2 ^ (bitLength x - 53)

instance (x t : Nat) : Decidable (IsNearestDouble x t) := by
  unfold IsNearestDouble
  infer_instance

/-- The JavaScript product `a * b` of two integer-valued numbers below `2 ^ 53`:
the exact product rounded to a double. A present-day clock reading times `1000000`
lies above `2 ^ 53`, so the rounding shows: `BigInt(1700000000001 * 1000000)` is
`1700000000000999936n`. -/
def jsMul (a b : Nat) : Nat := roundBinary64 (a * b)

/-- The values a property read on a string can produce, and the values stored as the
first component of an entry. -/
inductive JSVal where
  | undefined : JSVal
  | num (n : Nat) : JSVal
  | str (s : JSString) : JSVal
  deriving DecidableEq

/-- JavaScript truthiness (`ToBoolean`) of a value. -/
def JSVal.truthy : JSVal → Bool
  | .undefined => false
  | .num n => n != 0
  | .str s => !s.isEmpty

/-- Value of a decimal digit code unit. -/
def digitValue (c : Nat) : Option Nat :=
  if 48 ≤ c ∧ c ≤ 57 then some (c - 48) else none

/-- Reads a run of decimal digits as a number, most significant first. -/
def parseDigits : List Nat → Nat → Option Nat
  | [], acc => some acc
  | c :: cs, acc =>
    match digitValue c with
    | some d => parseDigits cs (acc * 10 + d)
    | none => none

/-- The array index a property key denotes, if it is a canonical one: a non-empty run of
decimal digits without a leading zero (except `"0"` itself). -/
def arrayIndex (key : JSString) : Option Nat :=
  match key with
  | [] => none
  | [48] => some 0
  | 48 :: _ => none
  | cs => parseDigits cs 0

/-- Property read `s.key` on a string primitive `s`: the own properties of the string
wrapper are `length` and the indices below the length; any other key that is not a
member of the built-in prototypes reads as `undefined`. Inherited built-in methods
are not modelled; none of them is named `EdgeStartTimestamp`. -/
def stringGet (s : JSString) (key : JSString) : JSVal :=
  if key = ascii "length" then .num s.length
  else
    match arrayIndex key with
    | some i =>
      match s.get? i with
      | some c => .str [c]
      | none => .undefined
    | none => .undefined

/-- The expression `v || w` on strings that may be `null`: `v` when it is a non-empty
string, otherwise `w`. -/
def orDefault (v : Option JSString) (w : Option JSString) : Option JSString :=
  match v with
  | some (c :: cs) => some (c :: cs)
  | _ => w

/-! ## Data model -/

/-- One stream of the Loki push format: `{ stream: { job }, values }`; each value is the
pair `[timestamp, line]`. -/
structure LokiStream where
  job : JSString
  values : List (JSVal × JSString)
  deriving DecidableEq

/-- The object `lokiFormat`: `{ streams: [...] }`. -/
structure LokiFormat where
  streams : List LokiStream
  deriving DecidableEq

/-- The statement `lokiFormat.streams[0].values.push(entry)`. -/
def LokiFormat.pushValue (l : LokiFormat) (entry : JSVal × JSString) : LokiFormat :=
  match l.streams with
  | [] => l
  | s :: rest => { streams := { s with values := s.values ++ [entry] } :: rest }

/-- Exceptions the pipeline can end with. -/
inductive JSError where
  | inflateFailed : JSError
  | jsonFailed : JSError
  | fetchFailed : JSError
  deriving DecidableEq

/-- Library functions used by the worker whose code is not part of the repository.
`Doc` is the type of parsed JSON documents. -/
structure Platform (Doc : Type) where
  /-- The function `inflate` of pako; `none` when it throws. -/
  inflate : List Byte → Option (List Byte)
  /-- The method `json()` of a request or response body; `none` when it rejects. -/
  parseJSON : List Byte → Option Doc
  /-- The function `JSON.stringify` on a parsed document. -/
  stringifyDoc : Doc → JSString
  /-- The function `JSON.stringify` on a `lokiFormat` object. -/
  stringifyPayload : LokiFormat → JSString

/-- An outbound `fetch(url, init)` call. -/
structure FetchCall where
  url : JSString
  method : JSString
  headers : List (JSString × JSString)
  body : JSString
  deriving DecidableEq

/-- A response object of the backend as seen by the worker: its status code and the
bytes of its body. -/
structure BackendResponse where
  status : Nat
  body : List Byte
  deriving DecidableEq

/-- The surroundings of one request: the global `lokiHost`, the backend behind
`fetch` (`none` is a transport failure, otherwise the status code and body it
answers with) and the wall clock, whose `k`-th reading in this request
(`new Date().getTime()`, counted from `0`) is `clock k` milliseconds. -/
structure Env where
  lokiHost : JSString
  fetch : FetchCall → Option (Nat × List Byte)
  clock : Nat → Nat

/-- Effects performed so far while handling one request. -/
structure World (Doc : Type) where
  clockReads : Nat
  bodyReads : Nat
  outbound : List FetchCall
  logged : List Doc

/-- The world at the start of a request. -/
def World.init {Doc : Type} : World Doc :=
  { clockReads := 0, bodyReads := 0, outbound := [], logged := [] }

/-- The expression `new Date().getTime()`: the next clock reading. -/
def readClock {Doc : Type} (env : Env) (w : World Doc) : Nat × World Doc :=
  (env.clock w.clockReads, { w with clockReads := w.clockReads + 1 })

/-! ## `transformLogs` -/

/-- The argument object of `transformLogs`: `{ payload, contentEncoding, job }`, where
`payload` is the request (represented by its body) and the other two fields are
`null` (`none`) or a string. -/
structure TransformInput where
  payload : List Byte
  contentEncoding : Option JSString
  job : Option JSString

/-- Body of the `forEach` callback, lines 41 and 42: the timestamp is
`element.EdgeStartTimestamp` when that is truthy, otherwise a fresh clock reading
times `1000000`; the entry `[date, element]` is pushed. -/
def forEachBody {Doc : Type} (env : Env) (element : JSString)
    (st : LokiFormat × World Doc) : LokiFormat × World Doc :=
  let p := stringGet element (ascii "EdgeStartTimestamp")
  if p.truthy then (st.1.pushValue (p, element), st.2)
  else
    let (now, w) := readClock env st.2
    (st.1.pushValue (.num (jsMul now 1000000), element), w)

/-- Whether the entry built for `element` takes the fallback of line 41: the value
`element.EdgeStartTimestamp` is falsy, so the right operand of `||` is evaluated. -/
def takesFallback (element : JSString) : Bool :=
  !(stringGet element (ascii "EdgeStartTimestamp")).truthy

/-- The loop `log.forEach(...)`, lines 40 to 43. -/
def forEachLog {Doc : Type} (env : Env) :
    List JSString → LokiFormat × World Doc → LokiFormat × World Doc
  | [], st => st
  | element :: rest, st => forEachLog env rest (forEachBody env element st)

/-- The function `transformLogs(obj)`. -/
def transformLogs {Doc : Type} (P : Platform Doc) (env : Env) (obj : TransformInput)
    (w : World Doc) : World Doc × Except JSError LokiFormat :=
  let encoding := orDefault obj.contentEncoding none
  let jobname := (orDefault obj.job (some (ascii "cloudflare_logpush"))).getD []
  let lokiFormat : LokiFormat := { streams := [{ job := jobname, values := [] }] }
  if encoding = some (ascii "gzip") then
    let w1 := { w with bodyReads := w.bodyReads + 1 }
    match P.inflate obj.payload with
    | none => (w1, .error .inflateFailed)
    | some data =>
      let logdata := reduceToString (toUint16Array data)
      let log := splitNewline logdata
      let (out, w2) := forEachLog env log (lokiFormat, w1)
      (w2, .ok out)
  else
    let (now, w1) := readClock env w
    let date := jsMul now 1000000
    let w2 := { w1 with bodyReads := w1.bodyReads + 1 }
    match P.parseJSON obj.payload with
    | none => (w2, .error .jsonFailed)
    | some log => (w2, .ok (lokiFormat.pushValue (.num date, P.stringifyDoc log)))

/-! ## `pushLogs` -/

/-- The method `json()` of a backend response: the parsed body, or `none` when the
promise rejects because the body is not JSON. -/
def BackendResponse.json {Doc : Type} (P : Platform Doc) (r : BackendResponse) : Option Doc :=
  P.parseJSON r.body

/-- The request `pushLogs` hands to `fetch`, lines 52 to 59. -/
def pushCall {Doc : Type} (P : Platform Doc) (env : Env) (payload : LokiFormat)
    (credentials : JSString) : FetchCall :=
  let lokiServer := env.lokiHost
  { url := lokiServer
    body := P.stringifyPayload payload
    method := ascii "POST"
    headers := [(ascii "Authorization", credentials),
                (ascii "Content-Type", ascii "application/json")] }

/-- The function `pushLogs(payload, credentials)`. -/
def pushLogs {Doc : Type} (P : Platform Doc) (env : Env) (payload : LokiFormat)
    (credentials : JSString) (w : World Doc) : World Doc × Except JSError BackendResponse :=
  let call := pushCall P env payload credentials
  let w1 := { w with outbound := w.outbound ++ [call] }
  match env.fetch call with
  | none => (w1, .error .fetchFailed)
  | some (status, body) =>
    let req : BackendResponse := { status := status, body := body }
    match req.json P with
    | none => (w1, .error .jsonFailed)
    | some doc => ({ w1 with logged := w1.logged ++ [doc] }, .ok req)

/-! ## `handleRequest` -/

/-- The inbound request: its method, the value of `searchParams.get('job')`, the values of
`headers.get('authorization')` and `headers.get('content-encoding')` (`none` for
`null`), and its body. -/
structure Request where
  method : JSString
  job : Option JSString
  authorization : Option JSString
  contentEncoding : Option JSString
  body : List Byte

/-- A response built by the worker: the body text and the headers handed to the
`Response` constructor. -/
structure Response where
  body : JSString
  headers : List (JSString × JSString)
  deriving DecidableEq

/-- Text of `JSON.stringify({ success: false, message: 'please authenticate and use POST
requests' }, { headers: ... })`, lines 73 to 76. The object with the headers is the second
argument of `JSON.stringify`, where it has no effect, so the response is built
without headers. -/
def wrongMethodBody : JSString :=
  ascii "\x7b\"success\":false,\"message\":\"please authenticate and use POST requests\"\x7d"

/-- Text of `JSON.stringify({ success: false, message: 'please authenticate' },
{ headers: ... })`, lines 82 to 85; the response is again built without headers. -/
def noAuthBody : JSString :=
  ascii "\x7b\"success\":false,\"message\":\"please authenticate\"\x7d"

/-- Text of `JSON.stringify({ success: true })`. -/
def successBody : JSString := ascii "\x7b\"success\":true\x7d"

/-- The object `{ payload: await request, contentEncoding, job }` of line 88. -/
def Request.toTransformInput (request : Request) : TransformInput :=
  { payload := request.body, contentEncoding := request.contentEncoding, job := request.job }

/-- The function `handleRequest(request)`, run on a fresh request: the method check
comes first, then the check `!authHeader`, which rejects a missing header and an
empty one alike; an exception of `transformLogs` or `pushLogs` is not caught. -/
def handleRequest {Doc : Type} (P : Platform Doc) (env : Env) (request : Request) :
    World Doc × Except JSError Response :=
  if request.method ≠ ascii "POST" then
    (World.init, .ok { body := wrongMethodBody, headers := [] })
  else
    match request.authorization with
    | none => (World.init, .ok { body := noAuthBody, headers := [] })
    | some [] => (World.init, .ok { body := noAuthBody, headers := [] })
    | some (c :: cs) =>
      match transformLogs P env request.toTransformInput World.init with
      | (w1, .error e) => (w1, .error e)
      | (w1, .ok output) =>
        match pushLogs P env output (c :: cs) w1 with
        | (w2, .error e) => (w2, .error e)
        | (w2, .ok _) =>
          (w2, .ok { body := successBody,
                     headers := [(ascii "content-type", ascii "application/json")] })

/-! ## A reference platform

A small executable instance of the library functions, used to run the model on
concrete requests. It covers zlib streams made of one stored block, and JSON texts
built from ASCII strings without escapes, natural numbers below `10 ^ 21`, the three
literals, arrays, and objects whose keys are distinct and are not array indices; on
these it returns what the library functions return. The theorems on the worker
quantify over every platform. -/

/-- The Adler-32 checksum of a byte sequence. -/
def adler32 (data : List Byte) : Nat :=
  let sums := data.foldl
    (fun (s : Nat × Nat) x => ((s.1 + x.val) % 65521, (s.2 + (s.1 + x.val) % 65521) % 65521))
    (1, 0)
  sums.2 * 65536 + sums.1

/-- Reference `inflate`: accepts a zlib stream whose payload is one final stored
block with a correct length field and checksum, and returns the stored bytes. -/
def inflateStored : List Byte → Option (List Byte)
  | cmf :: flg :: 1 :: l0 :: l1 :: n0 :: n1 :: rest =>
    let len := l0.val + 256 * l1.val
    let nlen := n0.val + 256 * n1.val
    let data := rest.take len
    let trailer := (rest.drop len).map Fin.val
    if cmf.val = 120 ∧ (cmf.val * 256 + flg.val) % 31 = 0 ∧ flg.val / 32 % 2 = 0
        ∧ len + nlen = 65535 ∧ rest.length = len + 4
        ∧ trailer.foldl (fun acc b => acc * 256 + b) 0 = adler32 data then
      some data
    else none
  | _ => none

/-- Parsed JSON documents of the reference platform. -/
inductive Json where
  | null : Json
  | bool (b : Bool) : Json
  | num (n : Nat) : Json
  | str (s : JSString) : Json
  | arr (items : List Json) : Json
  | obj (fields : List (JSString × Json)) : Json

/-- Skips JSON white space. -/
def skipWs : List Nat → List Nat
  | [] => []
  | c :: cs => if c = 32 ∨ c = 9 ∨ c = 10 ∨ c = 13 then skipWs cs else c :: cs

/-- Reads the rest of a string literal after its opening quote: printable ASCII without
escapes, up to the closing quote. -/
def parseStringBody : List Nat → List Nat → Option (JSString × List Nat)
  | [], _ => none
  | c :: cs, acc =>
    if c = 34 then some (acc.reverse, cs)
    else if c = 92 ∨ c < 32 ∨ 126 < c then none
    else parseStringBody cs (c :: acc)

/-- Splits off the longest run of decimal digits at the front. -/
def takeDigits : List Nat → List Nat × List Nat
  | [] => ([], [])
  | c :: cs =>
    if 48 ≤ c ∧ c ≤ 57 then ((takeDigits cs).1.cons c, (takeDigits cs).2) else ([], c :: cs)

mutual
/-- Reads one JSON value; `fuel` bounds the nesting and the number of items. -/
def parseValue : Nat → List Nat → Option (Json × List Nat)
  | 0, _ => none
  | fuel + 1, input =>
    match skipWs input with
    | 110 :: 117 :: 108 :: 108 :: rest => some (.null, rest)
    | 116 :: 114 :: 117 :: 101 :: rest => some (.bool true, rest)
    | 102 :: 97 :: 108 :: 115 :: 101 :: rest => some (.bool false, rest)
    | 34 :: rest =>
      match parseStringBody rest [] with
      | some (s, r) => some (.str s, r)
      | none => none
    | 91 :: rest =>
      match skipWs rest with
      | 93 :: r => some (.arr [], r)
      | r =>
        match parseItems fuel r with
        | some (items, r2) => some (.arr items, r2)
        | none => none
    | 123 :: rest =>
      match skipWs rest with
      | 125 :: r => some (.obj [], r)
      | r =>
        match parseFields fuel r with
        | some (fields, r2) => some (.obj fields, r2)
        | none => none
    | c :: rest =>
      match arrayIndex (takeDigits (c :: rest)).1 with
      | some n => some (.num (roundBinary64 n), (takeDigits (c :: rest)).2)
      | none => none
    | [] => none
/-- Reads the items of a non-empty array up to and including the closing bracket. -/
def parseItems : Nat → List Nat → Option (List Json × List Nat)
  | 0, _ => none
  | fuel + 1, input =>
    match parseValue fuel input with
    | none => none
    | some (v, r) =>
      match skipWs r with
      | 44 :: r2 =>
        match parseItems fuel r2 with
        | some (vs, r3) => some (v :: vs, r3)
        | none => none
      | 93 :: r2 => some ([v], r2)
      | _ => none
/-- Reads the members of a non-empty object up to and including the closing brace. -/
def parseFields : Nat → List Nat → Option (List (JSString × Json) × List Nat)
  | 0, _ => none
  | fuel + 1, input =>
    match skipWs input with
    | 34 :: rest =>
      match parseStringBody rest [] with
      | none => none
      | some (key, r) =>
        match skipWs r with
        | 58 :: r1 =>
          match parseValue fuel r1 with
          | none => none
          | some (v, r2) =>
            match skipWs r2 with
            | 44 :: r3 =>
              match parseFields fuel r3 with
              | some (fs, r4) => some ((key, v) :: fs, r4)
              | none => none
            | 125 :: r3 => some ([(key, v)], r3)
            | _ => none
        | _ => none
    | _ => none
end

/-- Reference `json()`: the body is read as ASCII text and parsed as one JSON value
followed by white space only. -/
def parseJSONBytes (body : List Byte) : Option Json :=
  let text := body.map Fin.val
  match parseValue (2 * text.length + 2) text with
  | some (v, rest) => if skipWs rest = [] then some v else none
  | none => none

/-- Decimal digits of a natural number, as code units. -/
def decimalDigits (n : Nat) : JSString := (Nat.toDigits 10 n).map Char.toNat

/-- The decimal integer JavaScript prints for an integer-valued double `x` below `10 ^ 21`:
among the integers that round to `x`, the one with the most trailing zeros, and of
those the one nearest to `x`. -/
def shortestDecimal (x : Nat) : Nat :=
  (List.range 21).foldl
    (fun best j =>
      let lo := x / 10 ^ j * 10 ^ j
      let hi := lo + 10 ^ j
      if roundBinary64 lo = x ∧ roundBinary64 hi = x then
        if x - lo < hi - x then lo
        else if hi - x < x - lo then hi
        else if lo / 10 ^ j % 2 = 0 then lo else hi
      else if roundBinary64 lo = x then lo
      else if roundBinary64 hi = x then hi
      else best)
    x

/-- A number as `JSON.stringify` writes it. -/
def numberToString (x : Nat) : JSString := decimalDigits (shortestDecimal x)

/-- Lower-case hexadecimal digit, as a code unit. -/
def hexDigit (n : Nat) : Nat := if n < 10 then 48 + n else 87 + n

/-- The six-unit escape `\uXXXX` of a code unit. -/
def unicodeEscape (c : Nat) : JSString :=
  [92, 117, hexDigit (c / 4096 % 16), hexDigit (c / 256 % 16), hexDigit (c / 16 % 16),
    hexDigit (c % 16)]

/-- The units of a string as `JSON.stringify` writes them between the quotes: quote,
backslash and control characters are escaped, lone surrogates are written as
`\uXXXX`, every other unit stands for itself. -/
def quoteUnits : JSString → JSString
  | [] => []
  | c :: cs =>
    if c = 8 then [92, 98] ++ quoteUnits cs
    else if c = 9 then [92, 116] ++ quoteUnits cs
    else if c = 10 then [92, 110] ++ quoteUnits cs
    else if c = 12 then [92, 102] ++ quoteUnits cs
    else if c = 13 then [92, 114] ++ quoteUnits cs
    else if c = 34 then [92, 34] ++ quoteUnits cs
    else if c = 92 then [92, 92] ++ quoteUnits cs
    else if c < 32 then unicodeEscape c ++ quoteUnits cs
    else if 55296 ≤ c ∧ c < 56320 then
      match cs with
      | d :: ds =>
        if 56320 ≤ d ∧ d < 57344 then c :: d :: quoteUnits ds
        else unicodeEscape c ++ quoteUnits (d :: ds)
      | [] => unicodeEscape c
    else if 56320 ≤ c ∧ c < 57344 then unicodeEscape c ++ quoteUnits cs
    else c :: quoteUnits cs

/-- A string as `JSON.stringify` writes it. -/
def quoteString (s : JSString) : JSString := [34] ++ quoteUnits s ++ [34]

mutual
/-- Reference `JSON.stringify` on a parsed document. -/
def Json.stringify : Json → JSString
  | .null => ascii "null"
  | .bool true => ascii "true"
  | .bool false => ascii "false"
  | .num n => numberToString n
  | .str s => quoteString s
  | .arr items => [91] ++ Json.stringifyItems items ++ [93]
  | .obj fields => [123] ++ Json.stringifyFields fields ++ [125]
/-- Comma-separated items of an array. -/
def Json.stringifyItems : List Json → JSString
  | [] => []
  | [v] => Json.stringify v
  | v :: vs => Json.stringify v ++ [44] ++ Json.stringifyItems vs
/-- Comma-separated members of an object. -/
def Json.stringifyFields : List (JSString × Json) → JSString
  | [] => []
  | [(k, v)] => quoteString k ++ [58] ++ Json.stringify v
  | (k, v) :: fs => quoteString k ++ [58] ++ Json.stringify v ++ [44] ++ Json.stringifyFields fs
end

/-- Reference `JSON.stringify` on the first component of an entry. -/
def stringifyTimestamp : JSVal → JSString
  | .undefined => ascii "null"
  | .num n => numberToString n
  | .str s => quoteString s

/-- Comma-separated entries `[timestamp,"line"]`. -/
def stringifyValues : List (JSVal × JSString) → JSString
  | [] => []
  | [(t, line)] => [91] ++ stringifyTimestamp t ++ [44] ++ quoteString line ++ [93]
  | (t, line) :: rest =>
    [91] ++ stringifyTimestamp t ++ [44] ++ quoteString line ++ [93, 44] ++ stringifyValues rest

/-- One stream object as `JSON.stringify` writes it. -/
def stringifyStream (s : LokiStream) : JSString :=
  ascii "\x7b\"stream\":\x7b\"job\":" ++ quoteString s.job ++ ascii "\x7d,\"values\":["
    ++ stringifyValues s.values ++ ascii "]\x7d"

/-- Comma-separated stream objects. -/
def stringifyStreams : List LokiStream → JSString
  | [] => []
  | [s] => stringifyStream s
  | s :: rest => stringifyStream s ++ [44] ++ stringifyStreams rest

/-- Reference `JSON.stringify` on a `lokiFormat` object. -/
def stringifyLoki (l : LokiFormat) : JSString :=
  ascii "\x7b\"streams\":[" ++ stringifyStreams l.streams ++ ascii "]\x7d"

/-- The reference platform. -/
def referencePlatform : Platform Json :=
  { inflate := inflateStored
    parseJSON := parseJSONBytes
    stringifyDoc := Json.stringify
    stringifyPayload := stringifyLoki }

/-- The bytes of an ASCII text. -/
def bytes (s : String) : List Byte := s.toList.map (fun c => Fin.ofNat c.toNat)

/-- The zlib stream that holds `data` (shorter than `65536` bytes) as one stored block. -/
def zlibStored (data : List Byte) : List Byte :=
  let len := data.length
  let sum := adler32 data
  [120, 1, 1, Fin.ofNat (len % 256), Fin.ofNat (len / 256), Fin.ofNat ((65535 - len) % 256),
    Fin.ofNat ((65535 - len) / 256)] ++ data ++
  [Fin.ofNat (sum / 16777216), Fin.ofNat (sum / 65536 % 256), Fin.ofNat (sum / 256 % 256),
    Fin.ofNat (sum % 256)]

/-- A backend that answers every push with status `204` and an empty body, reached at
the Grafana Cloud push endpoint, with a clock that starts at `1700000000001`
milliseconds and advances by one millisecond at every reading. -/
def lokiEnv : Env :=
  { lokiHost := ascii "https://logs-prod-us-central1.grafana.net/loki/api/v1/push"
    fetch := fun _ => some (204, [])
    clock := fun k => 1700000000001 + k }

/-- The same surroundings with a backend that answers every push with status `400` and
the JSON body `{"error":"bad"}`. -/
def rejectingEnv : Env :=
  { lokiEnv with fetch := fun _ => some (400, bytes "\x7b\"error\":\"bad\"\x7d") }

/-! ## Concrete requests -/

/-- The bytes of the two lines `{"EdgeStartTimestamp":123,"x":1}` and `{"y":2}`, each
ended by a newline. -/
def recordLines : List Byte :=
  bytes "\x7b\"EdgeStartTimestamp\":123,\"x\":1\x7d\n\x7b\"y\":2\x7d\n"

/-- A POST with credential `Bearer abc`, `content-encoding: gzip`, no `job` parameter, whose
body is the zlib stream of `recordLines`. -/
def gzipRequest : Request :=
  { method := ascii "POST"
    job := none
    authorization := some (ascii "Bearer abc")
    contentEncoding := some (ascii "gzip")
    body := zlibStored recordLines }

/-- A POST with credential `Bearer abc`, no `content-encoding`, `?job=svc1` and the body
`{"msg":"hi"}`. -/
def jsonRequest : Request :=
  { method := ascii "POST"
    job := some (ascii "svc1")
    authorization := some (ascii "Bearer abc")
    contentEncoding := none
    body := bytes "\x7b\"msg\":\"hi\"\x7d" }

/-- The payload `transformLogs` builds for `jsonRequest` when the clock shows
`1700000000001`. -/
def jsonRequestPayload : LokiFormat :=
  { streams :=
      [{ job := ascii "svc1"
         values := [(JSVal.num (jsMul 1700000000001 1000000),
                     ascii "\x7b\"msg\":\"hi\"\x7d")] }] }

/-- A POST with `content-encoding: gzip` whose body is not a compressed stream. -/
def malformedGzipRequest : Request :=
  { gzipRequest with body := bytes "not gzip" }

/-- A POST without `content-encoding` whose body is not JSON. -/
def malformedJsonRequest : Request :=
  { jsonRequest with body := bytes "\x7b\"msg\":" }

/-- A POST with `content-encoding: gzip` whose body inflates to the two lines `a` and `b`. -/
def twoLineRequest : Request :=
  { gzipRequest with body := zlibStored (bytes "a\nb") }

/-- A GET request that carries a credential. -/
def getRequest : Request :=
  { jsonRequest with method := ascii "GET" }

/-- A POST without an `authorization` header. -/
def anonymousRequest : Request :=
  { jsonRequest with authorization := none }

/-! ## Lemmas on the primitives -/

theorem bitLengthAux_spec (fuel n : Nat) (h : n ≤ fuel) :
    n < 2 ^ bitLengthAux fuel n ∧ (n ≠ 0 → 2 ^ (bitLengthAux fuel n - 1) ≤ n) := by
  induction fuel generalizing n with
  | zero =>
    have h0 : n = 0 := by omega
    subst h0
    simp [bitLengthAux]
  | succ fuel ih =>
    by_cases hn : n = 0
    · subst hn
      simp [bitLengthAux]
    · have hhalf : n / 2 ≤ fuel := by omega
      obtain ⟨hlt, hle⟩ := ih (n / 2) hhalf
      simp only [bitLengthAux, hn, if_false, Nat.add_sub_cancel]
      refine ⟨?_, fun _ => ?_⟩
      · rw [Nat.pow_succ]
        omega
      · by_cases h2 : n / 2 = 0
        · have hz : bitLengthAux fuel (n / 2) = 0 := by
            rw [h2]
            cases fuel <;> simp [bitLengthAux]
          rw [hz]
          simp
          omega
        · have hk : bitLengthAux fuel (n / 2) ≠ 0 := by
            intro hk
            rw [hk] at hlt
            simp at hlt
            exact h2 hlt
          have hp : 2 ^ bitLengthAux fuel (n / 2)
              = 2 ^ (bitLengthAux fuel (n / 2) - 1) * 2 := by
            rw [← Nat.pow_succ]
            congr 1
            omega
          have := hle h2
          omega

/-- The function `bitLength` is the number of binary digits: `n` lies below
`2 ^ bitLength n`, and a positive `n` is at least `2 ^ (bitLength n - 1)`. -/
theorem bitLength_spec (n : Nat) :
    n < 2 ^ bitLength n ∧ (n ≠ 0 → 2 ^ (bitLength n - 1) ≤ n) :=
  bitLengthAux_spec n n (Nat.le_refl n)

/-- The function `roundBinary64` returns a double nearest to its argument: from
`2 ^ 53` on, with `e` the number of binary digits beyond the first `53`, the result
is a multiple of `2 ^ e` with a quotient of at most `2 ^ 53`, and it differs from the
argument by at most half of `2 ^ e`. -/
theorem roundBinary64_spec (n : Nat) (h : 2 ^ 53 ≤ n) :
    ∃ m : Nat, roundBinary64 n = m * 2 ^ (bitLength n - 53) ∧ m ≤ 2 ^ 53
      ∧ 2 * (roundBinary64 n - n) ≤ 2 ^ (bitLength n - 53)
      ∧ 2 * (n - roundBinary64 n) ≤ 2 ^ (bitLength n - 53) := by
  obtain ⟨hlt, hle⟩ := bitLength_spec n
  have hn0 : n ≠ 0 := by
    have : 0 < 2 ^ 53 := by positivity
    omega
  have hbig : 54 ≤ bitLength n := by
    by_contra hc
    have hc2 : bitLength n ≤ 53 := by omega
    have := Nat.pow_le_pow_right (by norm_num : 0 < 2) hc2
    omega
  obtain ⟨e, he⟩ : ∃ e, bitLength n = e + 54 := ⟨bitLength n - 54, by omega⟩
  have he1 : bitLength n - 53 = e + 1 := by omega
  have hnot : ¬ n < 2 ^ 53 := by omega
  have hX : (2 : Nat) ^ (e + 1) = 2 * 2 ^ e := by rw [Nat.pow_succ]; ring
  have hXpos : 0 < (2 : Nat) ^ e := by positivity
  have hdm := Nat.div_add_mod n (2 ^ (e + 1))
  have hmod := Nat.mod_lt n (show 0 < 2 ^ (e + 1) by positivity)
  have hq : n / 2 ^ (e + 1) < 2 ^ 53 := by
    rw [Nat.div_lt_iff_lt_mul (by positivity)]
    rw [he] at hlt
    calc n < 2 ^ (e + 54) := hlt
      _ = 2 ^ 53 * 2 ^ (e + 1) := by rw [← Nat.pow_add]; congr 1; omega
  simp only [roundBinary64, hnot, if_false, he1, Nat.add_sub_cancel]
  generalize hqdef : n / 2 ^ (e + 1) = q at hdm hq ⊢
  generalize hrdef : n % 2 ^ (e + 1) = r at hdm hmod ⊢
  have hmul : 2 ^ (e + 1) * q = q * 2 ^ (e + 1) := Nat.mul_comm _ _
  have hsucc : (q + 1) * 2 ^ (e + 1) = q * 2 ^ (e + 1) + 2 ^ (e + 1) := by ring
  generalize hQ : q * 2 ^ (e + 1) = Q at hmul hsucc ⊢
  split_ifs with h1 h2 h3
  · exact ⟨q, hQ.symm ▸ rfl, by omega, by omega, by omega⟩
  · exact ⟨q + 1, rfl, by omega, by omega, by omega⟩
  · exact ⟨q, hQ.symm ▸ rfl, by omega, by omega, by omega⟩
  · exact ⟨q + 1, rfl, by omega, by omega, by omega⟩

/-- The JavaScript product is a double nearest to the exact product. -/
theorem jsMul_nearest (a b : Nat) : IsNearestDouble (a * b) (jsMul a b) := by
  unfold IsNearestDouble jsMul
  by_cases h : a * b < 2 ^ 53
  · rw [if_pos h]
    unfold roundBinary64
    rw [if_pos h]
  · rw [if_neg h]
    obtain ⟨m, hm, hle, h1, h2⟩ := roundBinary64_spec (a * b) (Nat.le_of_not_lt h)
    have hpos : 0 < 2 ^ (bitLength (a * b) - 53) := by positivity
    refine ⟨?_, ?_, h1, h2⟩
    · rw [hm]
      exact Nat.mul_mod_left _ _
    · rw [hm, Nat.mul_div_cancel _ hpos]
      exact hle

theorem foldl_fromCharCode (units : List Nat) (acc : JSString) :
    units.foldl (fun data byte => data ++ fromCharCode byte) acc
      = acc ++ units.map (fun u => u % 65536) := by
  induction units generalizing acc with
  | nil => simp
  | cons u us ih =>
    rw [List.foldl_cons, ih]
    simp [fromCharCode]

theorem reduceToString_eq_map (units : List Nat) :
    reduceToString units = units.map (fun u => u % 65536) := by
  simp [reduceToString, foldl_fromCharCode]

/-- The text built from the inflated bytes has one code unit per byte, equal to it. -/
theorem decodedText_eq (data : List Byte) :
    reduceToString (toUint16Array data) = data.map Fin.val := by
  rw [reduceToString_eq_map, toUint16Array, List.map_map]
  apply List.map_congr_left
  intro b _
  have hb : b.val < 256 := b.isLt
  simp only [Function.comp_apply]
  omega

theorem splitNewline_ne_nil (s : JSString) : splitNewline s ≠ [] := by
  induction s with
  | nil => simp [splitNewline]
  | cons c cs ih =>
    unfold splitNewline
    split_ifs
    · simp
    · split <;> simp

/-- The model of `split` agrees with the library function that splits a list at
every occurrence of a separator. -/
theorem splitNewline_eq_splitOn (s : JSString) : splitNewline s = s.splitOn newline := by
  induction s with
  | nil => rfl
  | cons c cs ih =>
    unfold splitNewline
    rw [List.splitOn, List.splitOnP_cons]
    by_cases h : c = newline
    · simp [h, ih, List.splitOn]
    · have hb : (c == newline) = false := by simpa using h
      rw [if_neg h, hb, ih, List.splitOn]
      cases hs : List.splitOnP (fun x => x == newline) cs with
      | nil => exact absurd hs (List.splitOnP_ne_nil _ _)
      | cons p r => simp

theorem splitNewline_length (s : JSString) :
    (splitNewline s).length = s.count newline + 1 := by
  induction s with
  | nil => rfl
  | cons c cs ih =>
    unfold splitNewline
    by_cases h : c = newline
    · subst h
      simp [ih]
    · rw [if_neg h, List.count_cons_of_ne (Ne.symm h)]
      cases hs : splitNewline cs with
      | nil => exact absurd hs (splitNewline_ne_nil cs)
      | cons p r => simpa [hs] using ih

theorem splitNewline_append (a b : JSString) :
    splitNewline (a ++ newline :: b) = splitNewline a ++ splitNewline b := by
  induction a with
  | nil => simp [splitNewline]
  | cons c cs ih =>
    rw [List.cons_append]
    by_cases h : c = newline
    · subst h
      simp [splitNewline, ih]
    · have h1 : splitNewline (c :: (cs ++ newline :: b))
          = match splitNewline (cs ++ newline :: b) with
            | [] => [[c]]
            | piece :: rest => (c :: piece) :: rest := by
        conv_lhs => unfold splitNewline
        rw [if_neg h]
      have h2 : splitNewline (c :: cs)
          = match splitNewline cs with
            | [] => [[c]]
            | piece :: rest => (c :: piece) :: rest := by
        conv_lhs => unfold splitNewline
        rw [if_neg h]
      rw [h1, h2, ih]
      cases hs : splitNewline cs with
      | nil => exact absurd hs (splitNewline_ne_nil cs)
      | cons p r => simp

theorem splitNewline_no_newline (s : JSString) :
    ∀ l ∈ splitNewline s, newline ∉ l := by
  induction s with
  | nil => simp [splitNewline]
  | cons c cs ih =>
    unfold splitNewline
    by_cases h : c = newline
    · rw [if_pos h]
      intro l hl
      rcases List.mem_cons.mp hl with rfl | hl
      · simp
      · exact ih l hl
    · rw [if_neg h]
      cases hs : splitNewline cs with
      | nil => exact absurd hs (splitNewline_ne_nil cs)
      | cons p r =>
        rw [hs] at ih
        intro l hl
        rcases List.mem_cons.mp hl with rfl | hl
        · intro hmem
          rcases List.mem_cons.mp hmem with hc | hp
          · exact h hc.symm
          · exact ih p (List.mem_cons_self _ _) hp
        · exact ih l (List.mem_cons_of_mem _ hl)

theorem intercalate_splitNewline (s : JSString) :
    [newline].intercalate (splitNewline s) = s := by
  rw [splitNewline_eq_splitOn]
  exact List.intercalate_splitOn s newline

/-- A string has no property named `EdgeStartTimestamp`. -/
theorem stringGet_edgeStartTimestamp (s : JSString) :
    stringGet s (ascii "EdgeStartTimestamp") = JSVal.undefined := by
  have h1 : ascii "EdgeStartTimestamp" ≠ ascii "length" := by decide
  have h2 : arrayIndex (ascii "EdgeStartTimestamp") = none := by decide
  simp [stringGet, h1, h2]

/-- The entries the loop appends for `lines` when the clock has been read `k` times
before: line `i` is paired with the product of clock reading `k + i` and `1000000`. -/
theorem forEachLog_eq {Doc : Type} (env : Env) (lines : List JSString) (s : LokiStream)
    (rest : List LokiStream) (w : World Doc) :
    forEachLog env lines ({ streams := s :: rest }, w)
      = ({ streams :=
            { job := s.job
              values := s.values ++ List.map
                (fun p => (JSVal.num (jsMul (env.clock p.1) 1000000), p.2))
                (lines.enumFrom w.clockReads) } :: rest },
         { w with clockReads := w.clockReads + lines.length }) := by
  induction lines generalizing s w with
  | nil => simp [forEachLog]
  | cons l ls ih =>
    simp only [forEachLog, forEachBody, stringGet_edgeStartTimestamp, JSVal.truthy, readClock,
      LokiFormat.pushValue, Bool.false_eq_true, if_false]
    rw [ih]
    simp [List.enumFrom, Nat.add_assoc, Nat.add_comm 1]

theorem orDefault_none_eq_gzip (ce : Option JSString) :
    orDefault ce none = some (ascii "gzip") ↔ ce = some (ascii "gzip") := by
  cases ce with
  | none => simp [orDefault]
  | some v =>
    cases v with
    | nil => simp [orDefault]; decide
    | cons c cs => simp [orDefault]

/-- The gzip branch of `transformLogs`, in closed form. -/
theorem transformLogs_gzip {Doc : Type} (P : Platform Doc) (env : Env) (obj : TransformInput)
    (w : World Doc) (data : List Byte) (henc : obj.contentEncoding = some (ascii "gzip"))
    (hinf : P.inflate obj.payload = some data) :
    transformLogs P env obj w
      = ({ w with bodyReads := w.bodyReads + 1,
                  clockReads := w.clockReads + (splitNewline (data.map Fin.val)).length },
         .ok { streams :=
                [{ job := (orDefault obj.job (some (ascii "cloudflare_logpush"))).getD []
                   values := List.map
                     (fun p => (JSVal.num (jsMul (env.clock p.1) 1000000), p.2))
                     ((splitNewline (data.map Fin.val)).enumFrom w.clockReads) }] }) := by
  have h : orDefault obj.contentEncoding none = some (ascii "gzip") :=
    (orDefault_none_eq_gzip _).mpr henc
  simp only [transformLogs, h, if_true, hinf, decodedText_eq, forEachLog_eq]
  simp

/-- The gzip branch of `transformLogs` when `inflate` throws. -/
theorem transformLogs_gzip_error {Doc : Type} (P : Platform Doc) (env : Env)
    (obj : TransformInput) (w : World Doc) (henc : obj.contentEncoding = some (ascii "gzip"))
    (hinf : P.inflate obj.payload = none) :
    transformLogs P env obj w
      = ({ w with bodyReads := w.bodyReads + 1 }, .error .inflateFailed) := by
  have h : orDefault obj.contentEncoding none = some (ascii "gzip") :=
    (orDefault_none_eq_gzip _).mpr henc
  simp only [transformLogs, h, if_true, hinf]

/-- The other branch of `transformLogs`, in closed form. -/
theorem transformLogs_json {Doc : Type} (P : Platform Doc) (env : Env) (obj : TransformInput)
    (w : World Doc) (henc : obj.contentEncoding ≠ some (ascii "gzip")) :
    transformLogs P env obj w
      = ({ w with clockReads := w.clockReads + 1, bodyReads := w.bodyReads + 1 },
         match P.parseJSON obj.payload with
         | none => .error .jsonFailed
         | some log =>
           .ok { streams :=
                  [{ job := (orDefault obj.job (some (ascii "cloudflare_logpush"))).getD [],
                     values := [(JSVal.num (jsMul (env.clock w.clockReads) 1000000),
                                 P.stringifyDoc log)] }] }) := by
  have h : ¬ orDefault obj.contentEncoding none = some (ascii "gzip") :=
    fun hh => henc ((orDefault_none_eq_gzip _).mp hh)
  simp only [transformLogs, h, if_false, readClock, LokiFormat.pushValue]
  cases P.parseJSON obj.payload <;> simp

/-- Every call of `transformLogs` reads the body once and makes no outbound call. -/
theorem transformLogs_world {Doc : Type} (P : Platform Doc) (env : Env) (obj : TransformInput)
    (w : World Doc) :
    (transformLogs P env obj w).1.bodyReads = w.bodyReads + 1
      ∧ (transformLogs P env obj w).1.outbound = w.outbound := by
  by_cases henc : obj.contentEncoding = some (ascii "gzip")
  · cases hinf : P.inflate obj.payload with
    | none => simp [transformLogs_gzip_error P env obj w henc hinf]
    | some data => simp [transformLogs_gzip P env obj w data henc hinf]
  · simp [transformLogs_json P env obj w henc]

/-- A call of `pushLogs` issues exactly one request and reads no request body. -/
theorem pushLogs_world {Doc : Type} (P : Platform Doc) (env : Env) (payload : LokiFormat)
    (credentials : JSString) (w : World Doc) :
    (pushLogs P env payload credentials w).1.bodyReads = w.bodyReads
      ∧ (pushLogs P env payload credentials w).1.outbound
          = w.outbound ++ [pushCall P env payload credentials] := by
  cases hf : env.fetch (pushCall P env payload credentials) with
  | none => simp [pushLogs, hf]
  | some r =>
    obtain ⟨status, body⟩ := r
    cases hp : P.parseJSON body <;> simp [pushLogs, hf, hp, BackendResponse.json]

/-- The job label carried by any payload `transformLogs` returns. -/
theorem transformLogs_job {Doc : Type} (P : Platform Doc) (env : Env) (obj : TransformInput)
    (w : World Doc) (payload : LokiFormat) (h : (transformLogs P env obj w).2 = .ok payload) :
    payload.streams.map LokiStream.job
      = [(orDefault obj.job (some (ascii "cloudflare_logpush"))).getD []] := by
  by_cases henc : obj.contentEncoding = some (ascii "gzip")
  · cases hinf : P.inflate obj.payload with
    | none => simp [transformLogs_gzip_error P env obj w henc hinf] at h
    | some data =>
      rw [transformLogs_gzip P env obj w data henc hinf] at h
      simp only [Except.ok.injEq] at h
      subst h
      rfl
  · rw [transformLogs_json P env obj w henc] at h
    cases hp : P.parseJSON obj.payload with
    | none => simp [hp] at h
    | some log =>
      simp only [hp, Except.ok.injEq] at h
      subst h
      rfl

/-- Unfolding of `handleRequest` on an authenticated POST. -/
theorem handleRequest_authenticated {Doc : Type} (P : Platform Doc) (env : Env)
    (request : Request) (c : Nat) (cs : JSString) (hm : request.method = ascii "POST")
    (ha : request.authorization = some (c :: cs)) :
    handleRequest P env request
      = match transformLogs P env request.toTransformInput World.init with
        | (w1, .error e) => (w1, .error e)
        | (w1, .ok output) =>
          match pushLogs P env output (c :: cs) w1 with
          | (w2, .error e) => (w2, .error e)
          | (w2, .ok _) =>
            (w2, .ok { body := successBody,
                       headers := [(ascii "content-type", ascii "application/json")] }) := by
  simp [handleRequest, hm, ha]

/-! ## The claims -/

/-- C1: in the gzip path, for every inflated byte sequence `data` and the text built
from it, `transformLogs` returns a payload with exactly one stream whose lines (the
second components of its values, in order) are the pieces of the text split at
newlines: there is one entry more than there are newlines, joining the lines with
newlines gives the text back, no line contains a newline, and a text that ends in a
newline gives a last line that is empty. The loop run on no lines at all leaves the
one stream in place with an empty list of values. -/
theorem C1_gzip_lines {Doc : Type} (P : Platform Doc) (env : Env) (obj : TransformInput)
    (w : World Doc) (data : List Byte) (henc : obj.contentEncoding = some (ascii "gzip"))
    (hinf : P.inflate obj.payload = some data) :
    (∃ stream : LokiStream,
      (transformLogs P env obj w).2 = .ok { streams := [stream] }
      ∧ stream.values.map Prod.snd
          = (reduceToString (toUint16Array data)).splitOn newline
      ∧ stream.values.length = (reduceToString (toUint16Array data)).count newline + 1
      ∧ [newline].intercalate (stream.values.map Prod.snd)
          = reduceToString (toUint16Array data)
      ∧ (∀ line ∈ stream.values.map Prod.snd, newline ∉ line)
      ∧ (∀ t, reduceToString (toUint16Array data) = t ++ [newline] →
          (stream.values.map Prod.snd).getLast? = some []))
    ∧ (∀ (job : JSString) (w0 : World Doc),
        (forEachLog env [] ({ streams := [{ job := job, values := [] }] }, w0)).1
          = { streams := [{ job := job, values := [] }] }) := by
  refine ⟨?_, fun _ _ => rfl⟩
  rw [transformLogs_gzip P env obj w data henc hinf, decodedText_eq]
  refine ⟨_, rfl, ?_⟩
  have hsnd : ∀ (k : Nat) (ls : List JSString),
      List.map Prod.snd (List.map
        (fun p : Nat × JSString => (JSVal.num (jsMul (env.clock p.1) 1000000), p.2))
        (ls.enumFrom k)) = ls := by
    intro k ls
    induction ls generalizing k with
    | nil => rfl
    | cons l ls ih => simp [List.enumFrom, ih]
  simp only [hsnd]
  refine ⟨splitNewline_eq_splitOn _, ?_, intercalate_splitNewline _,
    splitNewline_no_newline _, ?_⟩
  · simp [splitNewline_length]
  · intro t ht
    rw [ht, splitNewline_append t []]
    simp [splitNewline]

/-- C1, at a concrete request: the body of `gzipRequest` inflates on the reference platform. -/
theorem C1_gzip_lines_witness :
    gzipRequest.toTransformInput.contentEncoding = some (ascii "gzip")
    ∧ referencePlatform.inflate gzipRequest.toTransformInput.payload
        = some recordLines
    ∧ ((∃ stream : LokiStream,
        (transformLogs referencePlatform lokiEnv gzipRequest.toTransformInput World.init).2
          = .ok { streams := [stream] }
        ∧ stream.values.map Prod.snd
            = (reduceToString (toUint16Array recordLines)).splitOn newline
        ∧ stream.values.length
            = (reduceToString (toUint16Array recordLines)).count newline + 1
        ∧ [newline].intercalate (stream.values.map Prod.snd)
            = reduceToString (toUint16Array recordLines)
        ∧ (∀ line ∈ stream.values.map Prod.snd, newline ∉ line)
        ∧ (∀ t, reduceToString (toUint16Array recordLines) = t ++ [newline] →
            (stream.values.map Prod.snd).getLast? = some []))
      ∧ (∀ (job : JSString) (w0 : World Json),
          (forEachLog lokiEnv [] ({ streams := [{ job := job, values := [] }] }, w0)).1
            = { streams := [{ job := job, values := [] }] })) :=
  ⟨rfl, rfl, C1_gzip_lines referencePlatform lokiEnv gzipRequest.toTransformInput World.init
    recordLines rfl rfl⟩

/-- C2: when the content encoding is anything but `gzip` (absent included) and the body
parses as the JSON value `v`, `transformLogs` reads the clock once and returns a
payload with exactly one stream holding exactly one entry: its timestamp is the
JavaScript product of that clock reading in milliseconds and `1000000` (a double
nearest to the exact product), and its line is the string `JSON.stringify(v)`. -/
theorem C2_json_single_entry {Doc : Type} (P : Platform Doc) (env : Env)
    (obj : TransformInput) (w : World Doc) (v : Doc)
    (henc : obj.contentEncoding ≠ some (ascii "gzip"))
    (hparse : P.parseJSON obj.payload = some v) :
    (∃ job : JSString,
      (transformLogs P env obj w).2
        = .ok { streams :=
                  [{ job := job
                     values := [(JSVal.num (jsMul (env.clock w.clockReads) 1000000),
                                 P.stringifyDoc v)] }] })
    ∧ (transformLogs P env obj w).1.clockReads = w.clockReads + 1
    ∧ IsNearestDouble (env.clock w.clockReads * 1000000)
        (jsMul (env.clock w.clockReads) 1000000) := by
  rw [transformLogs_json P env obj w henc, hparse]
  exact ⟨⟨_, rfl⟩, rfl, jsMul_nearest _ _⟩

/-- C2, at the request with body `{"msg":"hi"}` and job `svc1`: the one entry holds
the string `{"msg":"hi"}`. -/
theorem C2_json_single_entry_witness :
    jsonRequest.toTransformInput.contentEncoding ≠ some (ascii "gzip")
    ∧ referencePlatform.parseJSON jsonRequest.toTransformInput.payload
        = some (Json.obj [(ascii "msg", Json.str (ascii "hi"))])
    ∧ referencePlatform.stringifyDoc (Json.obj [(ascii "msg", Json.str (ascii "hi"))])
        = ascii "\x7b\"msg\":\"hi\"\x7d"
    ∧ ((∃ job : JSString,
        (transformLogs referencePlatform lokiEnv jsonRequest.toTransformInput World.init).2
          = .ok { streams :=
                    [{ job := job
                       values :=
                        [(JSVal.num
                            (jsMul (lokiEnv.clock (World.init : World Json).clockReads) 1000000),
                          referencePlatform.stringifyDoc
                                     (Json.obj [(ascii "msg", Json.str (ascii "hi"))]))] }] })
      ∧ (transformLogs referencePlatform lokiEnv jsonRequest.toTransformInput
            World.init).1.clockReads = (World.init : World Json).clockReads + 1
      ∧ IsNearestDouble (lokiEnv.clock (World.init : World Json).clockReads * 1000000)
          (jsMul (lokiEnv.clock (World.init : World Json).clockReads) 1000000)) :=
  ⟨by decide, rfl, rfl,
    C2_json_single_entry referencePlatform lokiEnv jsonRequest.toTransformInput World.init
      (Json.obj [(ascii "msg", Json.str (ascii "hi"))]) (by decide) rfl⟩

/-- C3, evaluated: on the request whose body inflates to
`{"EdgeStartTimestamp":123,"x":1}`, `{"y":2}` and a final newline, with a clock
that shows `1700000000001`, `1700000000002`, `1700000000003` at its three readings, the
property `EdgeStartTimestamp` of the first line (a string) is `undefined`, and every
entry, the first included, is stamped with a clock reading times `1000000`; the
first timestamp is not `123`. -/
theorem C3_edgeStartTimestamp_never_read :
    stringGet (ascii "\x7b\"EdgeStartTimestamp\":123,\"x\":1\x7d") (ascii "EdgeStartTimestamp")
      = JSVal.undefined
    ∧ (transformLogs referencePlatform lokiEnv gzipRequest.toTransformInput World.init).2
      = .ok { streams :=
                [{ job := ascii "cloudflare_logpush"
                   values :=
                    [(JSVal.num (jsMul 1700000000001 1000000),
                        ascii "\x7b\"EdgeStartTimestamp\":123,\"x\":1\x7d"),
                     (JSVal.num (jsMul 1700000000002 1000000), ascii "\x7b\"y\":2\x7d"),
                     (JSVal.num (jsMul 1700000000003 1000000), [])] }] }
    ∧ JSVal.num (jsMul 1700000000001 1000000) ≠ JSVal.num 123 :=
  ⟨rfl, rfl, by decide⟩

/-- C4: for every request, whichever branch decodes it, the payload `transformLogs`
returns has one job label: the `job` query parameter when it is present and not
empty, and `cloudflare_logpush` when it is absent or empty. -/
theorem C4_job_label {Doc : Type} (P : Platform Doc) (env : Env) (request : Request)
    (w : World Doc) (payload : LokiFormat)
    (h : (transformLogs P env request.toTransformInput w).2 = .ok payload) :
    (∀ c cs, request.job = some (c :: cs) →
        payload.streams.map LokiStream.job = [c :: cs])
    ∧ (request.job = none ∨ request.job = some [] →
        payload.streams.map LokiStream.job = [ascii "cloudflare_logpush"]) := by
  have hj := transformLogs_job P env request.toTransformInput w payload h
  have hjob : request.toTransformInput.job = request.job := rfl
  rw [hjob] at hj
  refine ⟨?_, ?_⟩
  · intro c cs hc
    rw [hj, hc]
    rfl
  · rintro (hn | hn) <;> (rw [hj, hn]; rfl)

/-- C4, at the JSON request with `?job=svc1` on the reference platform. -/
theorem C4_job_label_witness :
    (transformLogs referencePlatform lokiEnv jsonRequest.toTransformInput World.init).2
      = .ok { streams :=
                [{ job := ascii "svc1"
                   values := [(JSVal.num (jsMul 1700000000001 1000000),
                               ascii "\x7b\"msg\":\"hi\"\x7d")] }] }
    ∧ ((∀ c cs, jsonRequest.job = some (c :: cs) →
          List.map LokiStream.job
            [({ job := ascii "svc1"
                values := [(JSVal.num (jsMul 1700000000001 1000000),
                            ascii "\x7b\"msg\":\"hi\"\x7d")] } : LokiStream)] = [c :: cs])
      ∧ (jsonRequest.job = none ∨ jsonRequest.job = some [] →
          List.map LokiStream.job
            [({ job := ascii "svc1"
                values := [(JSVal.num (jsMul 1700000000001 1000000),
                            ascii "\x7b\"msg\":\"hi\"\x7d")] } : LokiStream)]
            = [ascii "cloudflare_logpush"])) :=
  ⟨rfl, C4_job_label referencePlatform lokiEnv jsonRequest World.init _ rfl⟩

/-- C5: for every POST request with a non-empty authorization header, if decoding
fails (gzip is declared and `inflate` throws, or gzip is not declared and the body
is not JSON), then `transformLogs` ends with an error instead of a payload,
`handleRequest` ends with that same error, no outbound call has been made, and
no response, `{"success":true}` included, is returned. -/
theorem C5_decode_failure {Doc : Type} (P : Platform Doc) (env : Env) (request : Request)
    (c : Nat) (cs : JSString) (hm : request.method = ascii "POST")
    (ha : request.authorization = some (c :: cs))
    (hfail : (request.contentEncoding = some (ascii "gzip") ∧ P.inflate request.body = none)
      ∨ (request.contentEncoding ≠ some (ascii "gzip") ∧ P.parseJSON request.body = none)) :
    ∃ e : JSError,
      (transformLogs P env request.toTransformInput World.init).2 = .error e
      ∧ (handleRequest P env request).2 = .error e
      ∧ (handleRequest P env request).1.outbound = []
      ∧ ∀ response : Response, (handleRequest P env request).2 ≠ .ok response := by
  rw [handleRequest_authenticated P env request c cs hm ha]
  rcases hfail with ⟨henc, hinf⟩ | ⟨henc, hparse⟩
  · have ht := transformLogs_gzip_error P env request.toTransformInput World.init henc hinf
    rw [ht]
    exact ⟨.inflateFailed, rfl, rfl, rfl, fun _ h => by cases h⟩
  · have ht := transformLogs_json P env request.toTransformInput World.init henc
    have hp : P.parseJSON request.toTransformInput.payload = none := hparse
    rw [hp] at ht
    rw [ht]
    exact ⟨.jsonFailed, rfl, rfl, rfl, fun _ h => by cases h⟩

/-- C5, at the request that declares gzip and carries the bytes of `not gzip`; the
request without encoding whose body is the truncated text `{"msg":` fails in the
same way on the other branch. -/
theorem C5_decode_failure_witness :
    malformedGzipRequest.method = ascii "POST"
    ∧ malformedGzipRequest.authorization = some (ascii "Bearer abc")
    ∧ ((malformedGzipRequest.contentEncoding = some (ascii "gzip")
          ∧ referencePlatform.inflate malformedGzipRequest.body = none)
        ∨ (malformedGzipRequest.contentEncoding ≠ some (ascii "gzip")
          ∧ referencePlatform.parseJSON malformedGzipRequest.body = none))
    ∧ (∃ e : JSError,
      (transformLogs referencePlatform rejectingEnv malformedGzipRequest.toTransformInput
          World.init).2 = .error e
      ∧ (handleRequest referencePlatform rejectingEnv malformedGzipRequest).2 = .error e
      ∧ (handleRequest referencePlatform rejectingEnv malformedGzipRequest).1.outbound = []
      ∧ ∀ response : Response,
          (handleRequest referencePlatform rejectingEnv malformedGzipRequest).2
            ≠ .ok response)
    ∧ referencePlatform.parseJSON malformedJsonRequest.body = none
    ∧ (handleRequest referencePlatform rejectingEnv malformedJsonRequest).2
        = .error .jsonFailed
    ∧ (handleRequest referencePlatform rejectingEnv malformedJsonRequest).1.outbound = [] :=
  ⟨rfl, rfl, Or.inl ⟨rfl, rfl⟩,
    C5_decode_failure referencePlatform rejectingEnv malformedGzipRequest 66
      (ascii "earer abc") rfl rfl (Or.inl ⟨rfl, rfl⟩), rfl, rfl, rfl⟩

/-- Effects of `handleRequest` on a POST with a non-empty authorization header: the
body is read once, and one request is sent exactly when decoding succeeded. -/
theorem handleRequest_authenticated_world {Doc : Type} (P : Platform Doc) (env : Env)
    (request : Request) (c : Nat) (cs : JSString) (hm : request.method = ascii "POST")
    (ha : request.authorization = some (c :: cs)) :
    (handleRequest P env request).1.bodyReads = 1
    ∧ ((∃ payload, (transformLogs P env request.toTransformInput World.init).2 = .ok payload
          ∧ (handleRequest P env request).1.outbound = [pushCall P env payload (c :: cs)])
      ∨ (∃ e, (transformLogs P env request.toTransformInput World.init).2 = .error e
          ∧ (handleRequest P env request).2 = .error e
          ∧ (handleRequest P env request).1.outbound = [])) := by
  rw [handleRequest_authenticated P env request c cs hm ha]
  have hw := transformLogs_world P env request.toTransformInput World.init
  rcases hT : transformLogs P env request.toTransformInput World.init with ⟨w1, r⟩
  rw [hT] at hw
  have hb : w1.bodyReads = 1 := hw.1
  have ho : w1.outbound = [] := hw.2
  cases r with
  | error e => exact ⟨hb, Or.inr ⟨e, rfl, rfl, ho⟩⟩
  | ok payload =>
    dsimp only
    have hp := pushLogs_world P env payload (c :: cs) w1
    rcases hP : pushLogs P env payload (c :: cs) w1 with ⟨w2, r2⟩
    rw [hP] at hp
    have hb2 : w2.bodyReads = 1 := by rw [← hb]; exact hp.1
    have ho2 : w2.outbound = [pushCall P env payload (c :: cs)] := by
      have := hp.2
      rw [ho] at this
      simpa using this
    cases r2 with
    | error e => exact ⟨hb2, Or.inl ⟨payload, rfl, ho2⟩⟩
    | ok resp => exact ⟨hb2, Or.inl ⟨payload, rfl, ho2⟩⟩

/-- When the backend answers with a body that is not JSON, the diagnostic read in
`pushLogs` rejects and no response is returned, whatever the status code. -/
theorem pushLogs_error_of_non_json_body {Doc : Type} (P : Platform Doc) (env : Env)
    (payload : LokiFormat) (credentials : JSString) (w : World Doc) (status : Nat)
    (body : List Byte)
    (hfetch : env.fetch (pushCall P env payload credentials) = some (status, body))
    (hjson : P.parseJSON body = none) :
    (pushLogs P env payload credentials w).2 = .error .jsonFailed := by
  simp [pushLogs, hfetch, BackendResponse.json, hjson]

/-- On an authenticated POST whose body decodes, a backend answer whose body is not
JSON makes `handleRequest` end with the error of the diagnostic read, after the
push has been sent, whatever the status code. -/
theorem handleRequest_error_of_non_json_backend_body {Doc : Type} (P : Platform Doc)
    (env : Env) (request : Request) (c : Nat) (cs : JSString) (w1 : World Doc)
    (payload : LokiFormat) (status : Nat) (body : List Byte)
    (hm : request.method = ascii "POST") (ha : request.authorization = some (c :: cs))
    (hdec : transformLogs P env request.toTransformInput World.init = (w1, .ok payload))
    (hfetch : env.fetch (pushCall P env payload (c :: cs)) = some (status, body))
    (hjson : P.parseJSON body = none) :
    (handleRequest P env request).2 = .error .jsonFailed := by
  have hp : pushLogs P env payload (c :: cs) w1
      = ({ w1 with outbound := w1.outbound ++ [pushCall P env payload (c :: cs)] },
         .error .jsonFailed) := by
    simp [pushLogs, hfetch, BackendResponse.json, hjson]
  rw [handleRequest_authenticated P env request c cs hm ha, hdec]
  simp only [hp]

/-- C6, evaluated: the JSON request is decoded and the push is sent; the backend
answers it with status `204` and an empty body, without any transport failure. The
diagnostic `req.json()` of line 60 rejects, so `pushLogs` returns no response and
`handleRequest` ends with that error instead of returning `{"success":true}`. -/
theorem C6_empty_backend_body_throws :
    (transformLogs referencePlatform lokiEnv jsonRequest.toTransformInput World.init).2
      = .ok jsonRequestPayload
    ∧ lokiEnv.fetch (pushCall referencePlatform lokiEnv jsonRequestPayload (ascii "Bearer abc"))
      = some (204, [])
    ∧ (pushLogs referencePlatform lokiEnv jsonRequestPayload (ascii "Bearer abc")
        (transformLogs referencePlatform lokiEnv jsonRequest.toTransformInput World.init).1).2
      = .error .jsonFailed
    ∧ (handleRequest referencePlatform lokiEnv jsonRequest).2 = .error .jsonFailed
    ∧ (handleRequest referencePlatform lokiEnv jsonRequest).1.outbound
      = [pushCall referencePlatform lokiEnv jsonRequestPayload (ascii "Bearer abc")] :=
  ⟨rfl, rfl, rfl, rfl, rfl⟩

/-- The status code of the backend is never looked at: on an authenticated POST whose
body decodes, for every backend answer, of any status code, whose body parses as
JSON, `pushLogs` returns the response `fetch` resolved with, unchanged, and
`handleRequest` returns the body `{"success":true}` with content type
`application/json`. -/
theorem handleRequest_success_of_json_backend_body {Doc : Type} (P : Platform Doc) (env : Env)
    (request : Request) (c : Nat) (cs : JSString) (w1 : World Doc) (payload : LokiFormat)
    (status : Nat) (body : List Byte) (doc : Doc)
    (hm : request.method = ascii "POST") (ha : request.authorization = some (c :: cs))
    (hdec : transformLogs P env request.toTransformInput World.init = (w1, .ok payload))
    (hfetch : env.fetch (pushCall P env payload (c :: cs)) = some (status, body))
    (hjson : P.parseJSON body = some doc) :
    (pushLogs P env payload (c :: cs) w1).2
      = .ok { status := status, body := body }
    ∧ (handleRequest P env request).2
      = .ok { body := ascii "\x7b\"success\":true\x7d"
              headers := [(ascii "content-type", ascii "application/json")] } := by
  have hp : pushLogs P env payload (c :: cs) w1
      = ({ w1 with outbound := w1.outbound ++ [pushCall P env payload (c :: cs)],
                   logged := w1.logged ++ [doc] },
         .ok { status := status, body := body }) := by
    simp [pushLogs, hfetch, BackendResponse.json, hjson]
  refine ⟨by rw [hp], ?_⟩
  rw [handleRequest_authenticated P env request c cs hm ha, hdec]
  simp only [hp]
  rfl

/-- The JSON request with a backend that answers status `400` and a JSON body is
answered with `{"success":true}`. -/
theorem handleRequest_success_of_json_backend_body_example :
    jsonRequest.method = ascii "POST"
    ∧ jsonRequest.authorization = some (ascii "Bearer abc")
    ∧ rejectingEnv.fetch (pushCall referencePlatform rejectingEnv jsonRequestPayload
        (ascii "Bearer abc")) = some (400, bytes "\x7b\"error\":\"bad\"\x7d")
    ∧ referencePlatform.parseJSON (bytes "\x7b\"error\":\"bad\"\x7d")
        = some (Json.obj [(ascii "error", Json.str (ascii "bad"))])
    ∧ (pushLogs referencePlatform rejectingEnv jsonRequestPayload (ascii "Bearer abc")
        (transformLogs referencePlatform rejectingEnv jsonRequest.toTransformInput
          World.init).1).2
      = .ok { status := 400, body := bytes "\x7b\"error\":\"bad\"\x7d" }
    ∧ (handleRequest referencePlatform rejectingEnv jsonRequest).2
      = .ok { body := ascii "\x7b\"success\":true\x7d"
              headers := [(ascii "content-type", ascii "application/json")] } :=
  ⟨rfl, rfl, rfl, rfl,
    handleRequest_success_of_json_backend_body referencePlatform rejectingEnv jsonRequest 66
      (ascii "earer abc") _ jsonRequestPayload 400 (bytes "\x7b\"error\":\"bad\"\x7d")
      (Json.obj [(ascii "error", Json.str (ascii "bad"))]) rfl rfl rfl rfl rfl⟩

set_option maxRecDepth 8192 in
/-- The text the reference platform sends for `jsonRequestPayload`. -/
theorem stringifyPayload_jsonRequestPayload :
    referencePlatform.stringifyPayload jsonRequestPayload
      = ascii ("\x7b\"streams\":[\x7b\"stream\":\x7b\"job\":\"svc1\"\x7d,\"values\":"
          ++ "[[1700000000001000000,\"\x7b\\\"msg\\\":\\\"hi\\\"\x7d\"]]\x7d]\x7d") := by
  decide

/-- C7: for every payload and credential, `pushLogs` adds exactly one outbound request:
a POST to `lokiHost` with body `JSON.stringify(payload)`, header `Content-Type:
application/json` and header `Authorization` equal to the credential; and on a POST
whose authorization header `c` is not empty and whose body decodes to `payload`,
`handleRequest` issues that one request with `Authorization` equal to `c` and the
body `JSON.stringify(payload)`, and no other. -/
theorem C7_one_authenticated_post {Doc : Type} (P : Platform Doc) (env : Env)
    (request : Request) (c : Nat) (cs : JSString) (payload : LokiFormat)
    (hm : request.method = ascii "POST") (ha : request.authorization = some (c :: cs))
    (hdec : (transformLogs P env request.toTransformInput World.init).2 = .ok payload) :
    (∀ (p : LokiFormat) (credentials : JSString) (w : World Doc),
      (pushLogs P env p credentials w).1.outbound
        = w.outbound ++
          [{ url := env.lokiHost
             method := ascii "POST"
             headers := [(ascii "Authorization", credentials),
                         (ascii "Content-Type", ascii "application/json")]
             body := P.stringifyPayload p }])
    ∧ (handleRequest P env request).1.outbound
        = [{ url := env.lokiHost
             method := ascii "POST"
             headers := [(ascii "Authorization", c :: cs),
                         (ascii "Content-Type", ascii "application/json")]
             body := P.stringifyPayload payload }] := by
  refine ⟨fun p credentials w => (pushLogs_world P env p credentials w).2, ?_⟩
  rcases (handleRequest_authenticated_world P env request c cs hm ha).2 with
    ⟨p, hp, ho⟩ | ⟨e, he, _, _⟩
  · rw [hdec] at hp
    cases hp
    exact ho
  · rw [hdec] at he
    cases he

/-- C7, at the JSON request with credential `Bearer abc`: the one request sent carries
that credential and the serialised payload, whose text on the reference platform
is given in full. -/
theorem C7_one_authenticated_post_witness :
    jsonRequest.method = ascii "POST"
    ∧ jsonRequest.authorization = some (ascii "Bearer abc")
    ∧ (transformLogs referencePlatform rejectingEnv jsonRequest.toTransformInput
        World.init).2 = .ok jsonRequestPayload
    ∧ referencePlatform.stringifyPayload jsonRequestPayload
        = ascii ("\x7b\"streams\":[\x7b\"stream\":\x7b\"job\":\"svc1\"\x7d,\"values\":"
            ++ "[[1700000000001000000,\"\x7b\\\"msg\\\":\\\"hi\\\"\x7d\"]]\x7d]\x7d")
    ∧ (handleRequest referencePlatform rejectingEnv jsonRequest).1.outbound
        = [{ url := rejectingEnv.lokiHost
             method := ascii "POST"
             headers := [(ascii "Authorization", ascii "Bearer abc"),
                         (ascii "Content-Type", ascii "application/json")]
             body := referencePlatform.stringifyPayload jsonRequestPayload }] :=
  ⟨rfl, rfl, rfl, stringifyPayload_jsonRequestPayload,
    (C7_one_authenticated_post referencePlatform rejectingEnv jsonRequest 66
      (ascii "earer abc") jsonRequestPayload rfl rfl rfl).2⟩

/-- C8: `handleRequest` enters the pipeline (it reads the body to decode it, and
forwards after a successful decode) if and only if the method is POST and the
authorization header is present and not empty. Every request whose method is not
POST gets the body
`{"success":false,"message":"please authenticate and use POST requests"}`, whatever
its headers, and every POST whose authorization header is absent or empty gets the
body `{"success":false,"message":"please authenticate"}`; in both cases the request
body is not read and no outbound call is made. -/
theorem C8_gate {Doc : Type} (P : Platform Doc) (env : Env) (request : Request) :
    ((handleRequest P env request).1.bodyReads = 1
      ↔ (request.method = ascii "POST" ∧ ∃ c cs, request.authorization = some (c :: cs)))
    ∧ ((handleRequest P env request).1.outbound ≠ []
      → (request.method = ascii "POST" ∧ ∃ c cs, request.authorization = some (c :: cs)))
    ∧ (request.method = ascii "POST" → (∃ c cs, request.authorization = some (c :: cs))
      → (∃ payload, (transformLogs P env request.toTransformInput World.init).2 = .ok payload)
      → (handleRequest P env request).1.outbound.length = 1)
    ∧ (request.method ≠ ascii "POST"
      → (handleRequest P env request).2
          = .ok { body := ascii
                    "\x7b\"success\":false,\"message\":\"please authenticate and use POST requests\"\x7d"
                  headers := [] }
        ∧ (handleRequest P env request).1.bodyReads = 0
        ∧ (handleRequest P env request).1.outbound = [])
    ∧ (request.method = ascii "POST"
      → (request.authorization = none ∨ request.authorization = some [])
      → (handleRequest P env request).2
          = .ok { body := ascii "\x7b\"success\":false,\"message\":\"please authenticate\"\x7d"
                  headers := [] }
        ∧ (handleRequest P env request).1.bodyReads = 0
        ∧ (handleRequest P env request).1.outbound = []) := by
  have hwrong : request.method ≠ ascii "POST" →
      handleRequest P env request
        = (World.init, .ok { body := wrongMethodBody, headers := [] }) := by
    intro h
    simp [handleRequest, h]
  have hnoauth : request.method = ascii "POST" →
      (request.authorization = none ∨ request.authorization = some []) →
      handleRequest P env request = (World.init, .ok { body := noAuthBody, headers := [] }) := by
    intro h ha
    rcases ha with ha | ha <;> simp [handleRequest, h, ha]
  by_cases hm : request.method = ascii "POST"
  · rcases hauth : request.authorization with _ | ⟨_ | ⟨c, cs⟩⟩
    · have h := hnoauth hm (Or.inl hauth)
      rw [h]
      refine ⟨?_, ?_, ?_, fun h' => absurd hm h', fun _ _ => ⟨rfl, rfl, rfl⟩⟩
      · simp [World.init]
      · intro h'; exact absurd rfl h'
      · rintro _ ⟨c, cs, hc⟩; cases hc
    · have h := hnoauth hm (Or.inr hauth)
      rw [h]
      refine ⟨?_, ?_, ?_, fun h' => absurd hm h', fun _ _ => ⟨rfl, rfl, rfl⟩⟩
      · simp [World.init]
      · intro h'; exact absurd rfl h'
      · rintro _ ⟨c, cs, hc⟩; cases hc
    · have h := handleRequest_authenticated_world P env request c cs hm hauth
      refine ⟨⟨fun _ => ⟨hm, c, cs, rfl⟩, fun _ => h.1⟩, fun _ => ⟨hm, c, cs, rfl⟩, ?_,
        fun h' => absurd hm h', ?_⟩
      · rintro _ _ ⟨payload, hp⟩
        rcases h.2 with ⟨p, _, ho⟩ | ⟨e, he, _, _⟩
        · rw [ho]; rfl
        · rw [hp] at he; cases he
      · rintro _ (h' | h') <;> cases h'
  · have h := hwrong hm
    rw [h]
    refine ⟨?_, ?_, fun h' => absurd h' hm, fun _ => ⟨rfl, rfl, rfl⟩, fun h' => absurd h' hm⟩
    · simp [World.init, hm]
    · intro h'; exact absurd rfl h'

/-- C8, at a GET request that carries a credential and at a POST without one. -/
theorem C8_gate_witness :
    (getRequest.method ≠ ascii "POST"
      ∧ (handleRequest referencePlatform rejectingEnv getRequest).2
        = .ok { body := ascii
                  "\x7b\"success\":false,\"message\":\"please authenticate and use POST requests\"\x7d"
                headers := [] }
      ∧ (handleRequest referencePlatform rejectingEnv getRequest).1.bodyReads = 0
      ∧ (handleRequest referencePlatform rejectingEnv getRequest).1.outbound = [])
    ∧ (anonymousRequest.method = ascii "POST"
      ∧ anonymousRequest.authorization = none
      ∧ (handleRequest referencePlatform rejectingEnv anonymousRequest).2
        = .ok { body := ascii "\x7b\"success\":false,\"message\":\"please authenticate\"\x7d"
                headers := [] }
      ∧ (handleRequest referencePlatform rejectingEnv anonymousRequest).1.bodyReads = 0
      ∧ (handleRequest referencePlatform rejectingEnv anonymousRequest).1.outbound = []) :=
  ⟨⟨by decide, (C8_gate referencePlatform rejectingEnv getRequest).2.2.2.1 (by decide)⟩,
    ⟨rfl, rfl,
      (C8_gate referencePlatform rejectingEnv anonymousRequest).2.2.2.2 rfl (Or.inl rfl)⟩⟩

/-- The double `1700000000001 * 1000000` is `1700000000000999936`, and JavaScript prints
it with the digits of the exact product, `1700000000001000000`. -/
theorem shortestDecimal_clock_product :
    jsMul 1700000000001 1000000 = 1700000000000999936
    ∧ shortestDecimal (jsMul 1700000000001 1000000) = 1700000000001 * 1000000 := by
  decide

/-- C9, refuted at a concrete request: the body inflates to the two lines `a` and `b`,
and the clock shows `1700000000001` at its first reading and `1700000000002` at its
second. The clock is read twice, the two entries carry different timestamps, and
the first one, the double nearest to `1700000000001000000`, is not a multiple of
`1000000`. -/
theorem C9_clock_read_once_refuted :
    (transformLogs referencePlatform lokiEnv twoLineRequest.toTransformInput World.init).2
      = .ok { streams :=
                [{ job := ascii "cloudflare_logpush"
                   values := [(JSVal.num 1700000000000999936, ascii "a"),
                              (JSVal.num 1700000000001999872, ascii "b")] }] }
    ∧ (transformLogs referencePlatform lokiEnv twoLineRequest.toTransformInput
        World.init).1.clockReads = 2
    ∧ JSVal.num 1700000000000999936 ≠ JSVal.num 1700000000001999872
    ∧ jsMul (lokiEnv.clock 0) 1000000 % 1000000 = 999936 :=
  ⟨rfl, rfl, by decide, by decide⟩

theorem countP_take_lt {α : Type} (p : α → Bool) (l : List α) (i : Nat) (e : α)
    (h : l[i]? = some e) (hp : p e = true) : (l.take i).countP p < l.countP p := by
  induction l generalizing i with
  | nil => simp at h
  | cons x xs ih =>
    cases i with
    | zero =>
      simp only [List.getElem?_cons_zero, Option.some.injEq] at h
      subst h
      simp [List.countP_cons, hp]
    | succ i =>
      simp only [List.getElem?_cons_succ] at h
      have := ih i h
      simp only [List.take_succ_cons, List.countP_cons]
      omega

/-- The loop, entry by entry: it appends one entry per line, in order; it reads the
clock exactly once for each entry that takes the fallback, and such an entry
carries the product of the reading taken for it and `1000000`. -/
theorem forEachLog_fallback {Doc : Type} (env : Env) (lines : List JSString) (s : LokiStream)
    (rest : List LokiStream) (w : World Doc) :
    ∃ added : List (JSVal × JSString),
      forEachLog env lines ({ streams := s :: rest }, w)
        = ({ streams := { job := s.job, values := s.values ++ added } :: rest },
           { w with clockReads := w.clockReads + added.countP (fun e => takesFallback e.2) })
      ∧ added.map Prod.snd = lines
      ∧ ∀ (i : Nat) (t : JSVal) (line : JSString), added[i]? = some (t, line) →
          takesFallback line = true →
          t = JSVal.num (jsMul (env.clock (w.clockReads
                + (added.take i).countP (fun e => takesFallback e.2))) 1000000) := by
  induction lines generalizing s w with
  | nil => exact ⟨[], by simp [forEachLog], rfl, by simp⟩
  | cons l ls ih =>
    by_cases hp : (stringGet l (ascii "EdgeStartTimestamp")).truthy = true
    · have hf : takesFallback l = false := by simp [takesFallback, hp]
      obtain ⟨added, heq, hsnd, hidx⟩ :=
        ih { job := s.job, values := s.values ++ [(stringGet l (ascii "EdgeStartTimestamp"), l)] }
          w
      refine ⟨(stringGet l (ascii "EdgeStartTimestamp"), l) :: added, ?_, ?_, ?_⟩
      · simp only [forEachLog, forEachBody, hp, if_true, LokiFormat.pushValue]
        rw [heq]
        simp [List.countP_cons, hf]
      · simp [hsnd]
      · intro i t line hi hline
        cases i with
        | zero =>
          simp only [List.getElem?_cons_zero, Option.some.injEq, Prod.mk.injEq] at hi
          rw [← hi.2, hf] at hline
          cases hline
        | succ i =>
          simp only [List.getElem?_cons_succ] at hi
          rw [hidx i t line hi hline]
          simp [List.take_succ_cons, List.countP_cons, hf]
    · have hp1 : (stringGet l (ascii "EdgeStartTimestamp")).truthy = false := by
        simpa using hp
      have hf : takesFallback l = true := by simp [takesFallback, hp1]
      obtain ⟨added, heq, hsnd, hidx⟩ :=
        ih { job := s.job
             values := s.values ++ [(JSVal.num (jsMul (env.clock w.clockReads) 1000000), l)] }
          { w with clockReads := w.clockReads + 1 }
      refine ⟨(JSVal.num (jsMul (env.clock w.clockReads) 1000000), l) :: added, ?_, ?_, ?_⟩
      · simp only [forEachLog, forEachBody, hp1, Bool.false_eq_true, if_false, readClock,
          LokiFormat.pushValue]
        rw [heq]
        simp [List.countP_cons, hf, Nat.add_assoc, Nat.add_comm 1]
      · simp [hsnd]
      · intro i t line hi hline
        cases i with
        | zero =>
          simp only [List.getElem?_cons_zero, Option.some.injEq, Prod.mk.injEq] at hi
          rw [← hi.1]
          simp
        | succ i =>
          simp only [List.getElem?_cons_succ] at hi
          rw [hidx i t line hi hline]
          simp [List.take_succ_cons, List.countP_cons, hf, Nat.add_assoc, Nat.add_comm 1]

/-- C9, amended: within one gzip request the clock is read once for each entry that
takes the fallback, when that entry is built, and not once for the request. For
every sequence of lines and every clock, an entry that takes the fallback carries
the JavaScript product of the reading taken for it (the `k`-th reading of the loop
for the `k`-th such entry) and `1000000`, a natural number that is a double nearest
to the exact product (the exact product itself below `2 ^ 53`); and when all the
readings taken during the loop show the same millisecond, all the entries that take
the fallback carry the same timestamp. -/
theorem C9_fallback_per_entry {Doc : Type} (P : Platform Doc) (env : Env)
    (obj : TransformInput) (w : World Doc) (data : List Byte)
    (henc : obj.contentEncoding = some (ascii "gzip"))
    (hinf : P.inflate obj.payload = some data) :
    ∃ stream : LokiStream,
      (transformLogs P env obj w).2 = .ok { streams := [stream] }
      ∧ (∀ (i : Nat) (t : JSVal) (line : JSString), stream.values[i]? = some (t, line) →
          takesFallback line = true →
          t = JSVal.num (jsMul (env.clock (w.clockReads
                + (stream.values.take i).countP (fun e => takesFallback e.2))) 1000000))
      ∧ (transformLogs P env obj w).1.clockReads
          = w.clockReads + stream.values.countP (fun e => takesFallback e.2)
      ∧ (∀ k, IsNearestDouble (env.clock (w.clockReads + k) * 1000000)
          (jsMul (env.clock (w.clockReads + k)) 1000000))
      ∧ ((∀ k, k < stream.values.countP (fun e => takesFallback e.2) →
            env.clock (w.clockReads + k) = env.clock w.clockReads) →
          ∀ e ∈ stream.values, takesFallback e.2 = true →
            e.1 = JSVal.num (jsMul (env.clock w.clockReads) 1000000)) := by
  have h : orDefault obj.contentEncoding none = some (ascii "gzip") :=
    (orDefault_none_eq_gzip _).mpr henc
  obtain ⟨added, heq, _, hidx⟩ := forEachLog_fallback env
    (splitNewline (reduceToString (toUint16Array data)))
    { job := (orDefault obj.job (some (ascii "cloudflare_logpush"))).getD [], values := [] } []
    { w with bodyReads := w.bodyReads + 1 }
  simp only [transformLogs, h, if_true, hinf, heq, List.nil_append]
  refine ⟨_, rfl, hidx, rfl, fun k => jsMul_nearest _ _, ?_⟩
  intro hsame e he hfb
  obtain ⟨i, hi⟩ := List.getElem?_of_mem he
  have ht := hidx i e.1 e.2 hi hfb
  have hlt := countP_take_lt (fun e : JSVal × JSString => takesFallback e.2) added i e hi hfb
  rw [ht]
  exact congrArg (fun c => JSVal.num (jsMul c 1000000)) (hsame _ hlt)

/-- C9 amended, at the two-line request on the reference platform. -/
theorem C9_fallback_per_entry_witness :
    twoLineRequest.toTransformInput.contentEncoding = some (ascii "gzip")
    ∧ referencePlatform.inflate twoLineRequest.toTransformInput.payload = some (bytes "a\nb")
    ∧ ∃ stream : LokiStream,
      (transformLogs referencePlatform lokiEnv twoLineRequest.toTransformInput World.init).2
        = .ok { streams := [stream] }
      ∧ (∀ (i : Nat) (t : JSVal) (line : JSString), stream.values[i]? = some (t, line) →
          takesFallback line = true →
          t = JSVal.num (jsMul (lokiEnv.clock ((World.init : World Json).clockReads
                + (stream.values.take i).countP (fun e => takesFallback e.2))) 1000000))
      ∧ (transformLogs referencePlatform lokiEnv twoLineRequest.toTransformInput
            World.init).1.clockReads
          = (World.init : World Json).clockReads
              + stream.values.countP (fun e => takesFallback e.2)
      ∧ (∀ k, IsNearestDouble
          (lokiEnv.clock ((World.init : World Json).clockReads + k) * 1000000)
          (jsMul (lokiEnv.clock ((World.init : World Json).clockReads + k)) 1000000))
      ∧ ((∀ k, k < stream.values.countP (fun e => takesFallback e.2) →
            lokiEnv.clock ((World.init : World Json).clockReads + k)
              = lokiEnv.clock (World.init : World Json).clockReads) →
          ∀ e ∈ stream.values, takesFallback e.2 = true →
            e.1 = JSVal.num (jsMul (lokiEnv.clock (World.init : World Json).clockReads)
              1000000)) :=
  ⟨rfl, rfl, C9_fallback_per_entry referencePlatform lokiEnv twoLineRequest.toTransformInput
    World.init (bytes "a\nb") rfl rfl⟩

/-- C10: in the gzip path, the text that is split into lines has as many code units as
`inflate` returned bytes, its `i`-th code unit is the `i`-th byte, and the payload
has one entry more than there are bytes `0x0A`, the entries being the pieces of that
text. -/
theorem C10_bytewise_text {Doc : Type} (P : Platform Doc) (env : Env) (obj : TransformInput)
    (w : World Doc) (data : List Byte) (henc : obj.contentEncoding = some (ascii "gzip"))
    (hinf : P.inflate obj.payload = some data) :
    (reduceToString (toUint16Array data)).length = data.length
    ∧ (∀ i : Nat, (reduceToString (toUint16Array data))[i]? = data[i]?.map Fin.val)
    ∧ ∃ stream : LokiStream,
        (transformLogs P env obj w).2 = .ok { streams := [stream] }
        ∧ stream.values.map Prod.snd = splitNewline (reduceToString (toUint16Array data))
        ∧ stream.values.length = data.count (10 : Byte) + 1 := by
  rw [transformLogs_gzip P env obj w data henc hinf, decodedText_eq]
  refine ⟨by simp, fun i => by simp, _, rfl, ?_, ?_⟩
  · rw [List.map_map]
    have h : ∀ (k : Nat) (ls : List JSString),
        List.map (Prod.snd ∘ fun p : Nat × JSString =>
          (JSVal.num (jsMul (env.clock p.1) 1000000), p.2)) (ls.enumFrom k) = ls := by
      intro k ls
      induction ls generalizing k with
      | nil => rfl
      | cons l ls ih => simp [List.enumFrom, ih]
    exact h _ _
  · have hc : (data.map Fin.val).count newline = data.count (10 : Byte) :=
      List.count_map_of_injective data Fin.val Fin.val_injective (10 : Byte)
    simp [splitNewline_length, hc]

/-- C10, at the body of `gzipRequest` on the reference platform. -/
theorem C10_bytewise_text_witness :
    gzipRequest.toTransformInput.contentEncoding = some (ascii "gzip")
    ∧ referencePlatform.inflate gzipRequest.toTransformInput.payload
        = some recordLines
    ∧ ((reduceToString (toUint16Array recordLines)).length = recordLines.length
      ∧ (∀ i : Nat,
          (reduceToString (toUint16Array recordLines))[i]? = recordLines[i]?.map Fin.val)
      ∧ ∃ stream : LokiStream,
          (transformLogs referencePlatform lokiEnv gzipRequest.toTransformInput World.init).2
            = .ok { streams := [stream] }
          ∧ stream.values.map Prod.snd
              = splitNewline (reduceToString (toUint16Array recordLines))
          ∧ stream.values.length = recordLines.count (10 : Byte) + 1) :=
  ⟨rfl, rfl, C10_bytewise_text referencePlatform lokiEnv gzipRequest.toTransformInput World.init
    recordLines rfl rfl⟩

end LogpushGrafana
